import Mathlib

/-!
Verification development for the observability-go repository: a shallow
embedding of the trace-context propagation core (carrier, propagator,
span-id derivation, log correlation, the consumer message loop, and the
shared JSON helpers), with theorems settling the specification claims.

Go maps are embedded as association lists with Go assignment semantics
(update in place, append when fresh); Go strings are Lean strings; the
possibility of a nil map is an `Option` around the list; a Go panic or a
nil result is `none`.
-/

namespace Obs

/-! ## Association lists with Go map assignment semantics -/

/-- Go map assignment `m[k] = v`: replaces the binding in place when the key
is present, appends a fresh binding otherwise. -/
def assocSet {α : Type} : List (String × α) → String → α → List (String × α)
  | [], k, v => [(k, v)]
  | (k', v') :: rest, k, v =>
      if k' = k then (k, v) :: rest else (k', v') :: assocSet rest k v

/-! ## Hexadecimal encoding (model of encoding/hex on fixed-width ids) -/

/-- Lowercase hex digit for a value below 16. -/
def hexDigitChar (n : Nat) : Char :=
  if n < 10 then Char.ofNat (48 + n) else Char.ofNat (87 + n)

/-- Value of a lowercase hex digit; `none` for any other character. -/
def hexCharVal (c : Char) : Option Nat :=
  if 48 ≤ c.toNat ∧ c.toNat ≤ 57 then some (c.toNat - 48)
  else if 97 ≤ c.toNat ∧ c.toNat ≤ 102 then some (c.toNat - 87)
  else none

/-- Fixed-width big-endian hex rendering of a natural number, `w` digits. -/
def toHexW : Nat → Nat → List Char
  | 0, _ => []
  | w + 1, n => toHexW w (n / 16) ++ [hexDigitChar (n % 16)]

def fromHexAux : List Char → Nat → Option Nat
  | [], acc => some acc
  | c :: cs, acc =>
      match hexCharVal c with
      | some v => fromHexAux cs (16 * acc + v)
      | none => none

/-- Hex parsing of a digit list; `none` when any character is not lowercase hex. -/
def fromHex (l : List Char) : Option Nat := fromHexAux l 0

/-! ## Character-list splitting and joining -/

/-- Split a character list on a separator (model of strings.Split). -/
def splitOnChar (sep : Char) : List Char → List (List Char)
  | [] => [[]]
  | c :: cs =>
      match splitOnChar sep cs with
      | [] => [[]]
      | h :: t => if c = sep then [] :: h :: t else (c :: h) :: t

/-- Join character lists with a separator (model of strings.Join). -/
def joinChar (sep : Char) : List (List Char) → List Char
  | [] => []
  | [x] => x
  | x :: y :: xs => x ++ sep :: joinChar sep (y :: xs)

/-- Split at the first occurrence of the equals sign (model of
strings.SplitN with limit 2); `none` when no separator occurs. -/
def splitFirstEq : List Char → Option (List Char × List Char)
  | [] => none
  | c :: cs =>
      if c = '=' then some ([], cs)
      else (splitFirstEq cs).map (fun p => (c :: p.1, p.2))

/-! ## Trace context data model

Modelled from the spec: the propagation encode/decode logic invoked by
`InjectTraceContext` / `ExtractTraceContext` (src/unnamed/part_000) lives in
the OpenTelemetry library configured in initTracer as the composite of the
W3C TraceContext and Baggage propagators; it is not part of src/.  The spec
describes it in section 4.2: Inject writes one combined field carrying
{TraceID, current SpanID, TraceFlags} and a field carrying the Baggage
entries; Extract reads the same fields back and returns the context
unchanged on any malformed or missing field.  TraceFlags is the sampling
bit (spec section 3).  The combined field is the W3C traceparent
`00-<32 hex>-<16 hex>-<2 hex>`; the baggage field is the comma-joined list
of `key=value` members. -/

/-- TraceID (128-bit), current SpanID (64-bit), sampled flag. -/
structure SpanContext where
  traceID : Nat
  spanID : Nat
  sampled : Bool
deriving DecidableEq

/-- A span context is valid when both ids are nonzero. -/
def SpanContext.isValid (sc : SpanContext) : Bool :=
  decide (sc.traceID ≠ 0) && decide (sc.spanID ≠ 0)

/-- A context value: the current span context plus the baggage entries. -/
structure Ctx where
  sc : SpanContext
  baggage : List (String × String)
deriving DecidableEq

/-- context.Background(): no span, no baggage. -/
def background : Ctx := ⟨⟨0, 0, false⟩, []⟩

/-- Model of propagation.MapCarrier.Get: the map read returns the zero
value (the empty string) when the key is absent. -/
def mapGet (m : List (String × String)) (k : String) : String :=
  (m.lookup k).getD ""

/-- The serialized traceparent field of a span context. -/
def traceparentChars (sc : SpanContext) : List Char :=
  ['0', '0'] ++ '-' ::
    (toHexW 32 sc.traceID ++ '-' ::
      (toHexW 16 sc.spanID ++ '-' :: toHexW 2 (if sc.sampled then 1 else 0)))

/-- Decode the hex components of a traceparent: nonzero trace and span ids;
the sampling flag is the low bit of the flags byte. -/
def parseTraceparentFields (tid sid fl : List Char) : Option SpanContext :=
  (fromHex tid).bind fun t =>
    (fromHex sid).bind fun p =>
      (fromHex fl).bind fun f =>
        if t ≠ 0 ∧ p ≠ 0 then some ⟨t, p, f % 2 == 1⟩ else none

/-- Structural check of a traceparent: four dash-separated components of
widths 2/32/16/2, version 00. -/
def parseTraceparentParts : List (List Char) → Option SpanContext
  | [ver, tid, sid, fl] =>
      if ver = ['0', '0'] ∧ tid.length = 32 ∧ sid.length = 16 ∧ fl.length = 2 then
        parseTraceparentFields tid sid fl
      else none
  | _ => none

/-- Parse a traceparent field; any violation yields `none`. -/
def parseTraceparent (s : String) : Option SpanContext :=
  parseTraceparentParts (splitOnChar '-' s.data)

/-- The serialized member of one baggage entry: `key=value`. -/
def baggageMemberChars (p : String × String) : List Char :=
  p.1.data ++ '=' :: p.2.data

/-- The serialized baggage field: members joined by commas. -/
def baggageChars (bg : List (String × String)) : List Char :=
  joinChar ',' (bg.map baggageMemberChars)

/-- Parse one baggage member at the first equals sign; the key must be
nonempty. -/
def parseBaggageMember (m : List Char) : Option (String × String) :=
  match splitFirstEq m with
  | some (k, v) => if k = [] then none else some (String.mk k, String.mk v)
  | none => none

/-- Parse a baggage field; `none` when any member is malformed. -/
def parseBaggage (s : String) : Option (List (String × String)) :=
  goParse (splitOnChar ',' s.data)
where
  goParse : List (List Char) → Option (List (String × String))
    | [] => some []
    | m :: ms =>
        match parseBaggageMember m, goParse ms with
        | some p, some ps => some (p :: ps)
        | _, _ => none

/-- TraceContext propagator Inject: writes the traceparent field when the
current span context is valid, otherwise leaves the carrier alone. -/
def injectTC (ctx : Ctx) (c : List (String × String)) : List (String × String) :=
  if ctx.sc.isValid then
    assocSet c "traceparent" (String.mk (traceparentChars ctx.sc))
  else c

/-- Baggage propagator Inject: writes the baggage field when the baggage is
nonempty (its serialization is nonempty), otherwise leaves the carrier
alone. -/
def injectBaggage (ctx : Ctx) (c : List (String × String)) : List (String × String) :=
  if ctx.baggage = [] then c
  else assocSet c "baggage" (String.mk (baggageChars ctx.baggage))

/-- InjectTraceContext (src/unnamed/part_000 lines 13-17): allocate a fresh
empty carrier and run the composite propagator Inject (TraceContext then
Baggage) over it. -/
def injectTraceContext (ctx : Ctx) : List (String × String) :=
  injectBaggage ctx (injectTC ctx [])

/-- TraceContext propagator Extract: read the traceparent field; when
absent or unparseable return the context unchanged, otherwise install the
decoded span context. -/
def extractTC (ctx : Ctx) (c : List (String × String)) : Ctx :=
  if mapGet c "traceparent" = "" then ctx
  else
    match parseTraceparent (mapGet c "traceparent") with
    | some sc => { ctx with sc := sc }
    | none => ctx

/-- Baggage propagator Extract: read the baggage field; when absent or
unparseable return the context unchanged, otherwise install the decoded
baggage. -/
def extractBaggage (ctx : Ctx) (c : List (String × String)) : Ctx :=
  if mapGet c "baggage" = "" then ctx
  else
    match parseBaggage (mapGet c "baggage") with
    | some bg => { ctx with baggage := bg }
    | none => ctx

/-- ExtractTraceContext (src/unnamed/part_000 lines 25-27): composite
propagator Extract (TraceContext then Baggage) over the carrier map. -/
def extractTraceContext (ctx : Ctx) (c : List (String × String)) : Ctx :=
  extractBaggage (extractTC ctx c) c

/-- Validity of baggage entries as enforced by the OpenTelemetry baggage
type on construction: keys are nonempty and free of the member and list
separators, values are free of the list separator. -/
def validBaggage (bg : List (String × String)) : Prop :=
  ∀ p ∈ bg, p.1 ≠ "" ∧ '=' ∉ p.1.data ∧ ',' ∉ p.1.data ∧ ',' ∉ p.2.data

instance (bg : List (String × String)) : Decidable (validBaggage bg) := by
  unfold validBaggage
  infer_instance

/-! ## RabbitMQ carrier (src/consumer-1/main.go lines 36-59)

Message-header values are arbitrary AMQP values; the headers table is a Go
map that may be nil, embedded as an `Option` around the association list.
A Go panic is modelled as the `none` result. -/

inductive AmqpVal where
  | vStr : String → AmqpVal
  | vInt : Int → AmqpVal
  | vBool : Bool → AmqpVal
  | vBytes : List Nat → AmqpVal
deriving DecidableEq

/-- Model of RabbitMQCarrier: a wrapper around an amqp091.Table (a Go map
from string to arbitrary values); `none` models a nil table. -/
structure RabbitMQCarrier where
  headers : Option (List (String × AmqpVal))
deriving DecidableEq

/-- Reading a key from the headers table; reading from a nil Go map finds
nothing. -/
def RabbitMQCarrier.lookupHeader (c : RabbitMQCarrier) (key : String) : Option AmqpVal :=
  match c.headers with
  | none => none
  | some t => t.lookup key

/-- Model of (c *RabbitMQCarrier) Get (src/consumer-1/main.go lines 40-47):
return the value when the key is present and holds a string (the Go type
assertion val.(string)), otherwise the empty string. -/
def RabbitMQCarrier.get (c : RabbitMQCarrier) (key : String) : String :=
  match c.lookupHeader key with
  | some (.vStr s) => s
  | some _ => ""
  | none => ""

/-- Model of (c *RabbitMQCarrier) Set (src/consumer-1/main.go lines 49-51):
the Go assignment c.headers[key] = value; assignment to a nil map panics,
modelled as `none`. -/
def RabbitMQCarrier.set (c : RabbitMQCarrier) (key value : String) :
    Option RabbitMQCarrier :=
  match c.headers with
  | none => none
  | some t => some ⟨some (assocSet t key (.vStr value))⟩

/-! ## Span-id hex strings (src/unnamed/part_000 Trace, consumer loops) -/

/-- Model of trace.SpanID.String(): the unconditional lowercase hex
rendering of the 8-byte span id, 16 digits, zero id included. -/
def spanIDString (sid : Nat) : String := String.mk (toHexW 16 sid)

/-- The span-id hex value returned by shared.Trace (src/unnamed/part_000
lines 29-33): span.SpanContext().SpanID().String(), with no validity
check. -/
def traceSpanIdHex (sc : SpanContext) : String := spanIDString sc.spanID

/-- The consumer message-loop span-id derivation (src/consumer-1/main.go
lines 129-132): the hex string when the span context is valid, the empty
string otherwise. -/
def consumerCurrentSpanId (sc : SpanContext) : String :=
  if sc.isValid then spanIDString sc.spanID else ""

/-- The span context of a no-op placeholder span, as returned when tracing
is disabled: zero trace id, zero span id. -/
def noopSpanContext : SpanContext := ⟨0, 0, false⟩

/-! ## Consumer message-loop event order (src/unnamed/part_002 lines
200-262 and src/consumer-1/main.go lines 117-172)

The per-delivery loop body is embedded as the ordered list of its
observable boundary and tracing events. -/

inductive Event where
  | extractEvt
  | spanStart
  | spanEnd
  | logMsg
  | publish
  | nack
  | ack
deriving DecidableEq

/-- The loop body of the processing consumer (src/unnamed/part_002):
extract when headers are present, start the span, log; on a processing
error: log, negative-acknowledge, end the span, next iteration; on
success: inject/publish the forwarded message, log, end the span,
acknowledge. -/
def consumerLoopEvents (hasHeaders procErr : Bool) : List Event :=
  (if hasHeaders then [.extractEvt] else []) ++
    [.spanStart, .logMsg] ++
    (if procErr then [.logMsg, .nack, .spanEnd]
     else [.publish, .logMsg, .spanEnd, .ack])

/-- The loop body of the simple forwarding consumer
(src/consumer-1/main.go): no processing step and no error path; the span
ends, then the message is acknowledged. -/
def consumer1SimpleLoopEvents (hasHeaders : Bool) : List Event :=
  (if hasHeaders then [.extractEvt] else []) ++
    [.spanStart, .logMsg, .publish, .logMsg, .spanEnd, .ack]

/-! ## Log correlation (src/unnamed/part_003 lines 144-158)

A zap logger is embedded as the list of structured fields attached to it;
logger.With appends fields. -/

abbrev Logger := List (String × String)

/-- The trace-id field value: trace.TraceID.String(), the 32-digit
lowercase hex rendering. -/
def traceIDString (tid : Nat) : String := String.mk (toHexW 32 tid)

/-- Model of logger.WithTrace(ctx, spanId): when the span context of the
context is not valid, return the base logger unmodified; otherwise attach
a trace_id field and, only when the given span-id string is nonempty, a
span_id field. -/
def withTrace (sc : SpanContext) (spanId : String) (base : Logger) : Logger :=
  if sc.isValid then
    base ++ (("trace_id", traceIDString sc.traceID) ::
      (if spanId ≠ "" then [("span_id", spanId)] else []))
  else base

/-! ## Business errors on spans (src/unnamed/part_002 processMessage,
src/app/handler/handler.go /random-error) -/

inductive SpanStatus where
  | unset
  | errorStatus
deriving DecidableEq

/-- The mutable observable state of a span: its status and the errors
recorded on it. -/
structure SpanRecord where
  status : SpanStatus
  recorded : List String
deriving DecidableEq

/-- Result of processMessage: the state of the ProcessMessage span at
return, and the returned error if any. -/
structure ProcResult where
  span : SpanRecord
  err : Option String
deriving DecidableEq

/-- Model of processMessage (src/unnamed/part_002 lines 92-126) as a
function of the message body length and the simulated random-error draw:
an empty body returns an error with nothing recorded on the span; the
random processing error is recorded on the span with span.RecordError and
returned, with no SetStatus call anywhere in the function; otherwise no
error. -/
def processMessage (bodyLen : Nat) (randErr : Bool) : ProcResult :=
  if bodyLen = 0 then ⟨⟨.unset, []⟩, some "empty message body"⟩
  else if randErr then
    ⟨⟨.unset, ["random processing error in consumer-1"]⟩,
      some "random processing error in consumer-1"⟩
  else ⟨⟨.unset, []⟩, none⟩

/-- Result of the /random-error handler: the state of the handler span and
the HTTP response (status code, whether the body is the error payload). -/
structure HandlerResult where
  span : SpanRecord
  statusCode : Nat
  errorBody : Bool
deriving DecidableEq

/-- Model of the /random-error handler (src/app/handler/handler.go lines
51-68) as a function of the simulated error: on error the handler records
the error on its span, sets the Error status, and returns a 500 response
carrying the error; on success it returns a 200 response. -/
def randomErrorHandler (simErr : Option String) : HandlerResult :=
  match simErr with
  | some e => ⟨⟨.errorStatus, [e]⟩, 500, true⟩
  | none => ⟨⟨.unset, []⟩, 200, false⟩

/-! ## ConvertToMap and the JSON round trip (src/unnamed/part_000 lines
19-23 and 50-61)

JSON texts are represented by their parse trees: a Go string holding JSON
is embedded as the `Option` of its document (`none` for syntactically
invalid text), and json.Marshal — whose output is always syntactically
valid — is embedded as producing the document directly. -/

inductive Json where
  | null
  | bool (b : Bool)
  | num (n : Int)
  | str (s : String)
  | arr (xs : List Json)
  | obj (members : List (String × Json))

/-- Values held in a Go map[string]any input of ConvertToMap. -/
inductive GoVal where
  | vStr : String → GoVal
  | vInt : Int → GoVal
  | vBool : Bool → GoVal
  | vNull : GoVal
deriving DecidableEq

/-- Model of fmt.Sprintf with the %v verb on these values: a string prints
itself, an int prints in decimal, a bool prints true/false, nil prints
the angle-bracketed nil marker. -/
def gofmtV : GoVal → String
  | .vStr s => s
  | .vInt i => toString i
  | .vBool b => if b then "true" else "false"
  | .vNull => "<nil>"

/-- The dynamic input of ConvertToMap (a Go `any`): a map from string to
values, a string (given by its JSON parse view), or a value of any other
type. -/
inductive GoAny where
  | mapSA : List (String × GoVal) → GoAny
  | strVal : Option Json → GoAny
  | other : GoAny

/-- The string stored for one decoded JSON object member: the string value
itself, or the zero string when the member value is not a JSON string (the
decoder saves an UnmarshalTypeError, stores the zero value, and the caller
ignores the error). -/
def jsonMemberString : Json → String
  | .str s => s
  | _ => ""

/-- Model of json.Unmarshal of a text into a freshly made (non-nil, empty)
map[string]string, returning the map with the error discarded.  Documented
Go behavior: syntactically invalid input leaves the map untouched (the
input is validity-checked before any decoding); the JSON null sets the map
itself to nil (modelled as `none`); a non-object document leaves the map
untouched (a type error); an object stores every member key, later
duplicates overwriting earlier ones. -/
def unmarshalStringMap (doc : Option Json) : Option (List (String × String)) :=
  match doc with
  | none => some []
  | some .null => none
  | some (.obj ms) =>
      some (ms.foldl (fun acc p => assocSet acc p.1 (jsonMemberString p.2)) [])
  | some _ => some []

/-- Model of ConvertToMap (src/unnamed/part_000 lines 50-61): make an empty
map; in the map[string]any case store every value under its key in %v
form; in the string case unmarshal the text into the map ignoring the
error; return the map.  `none` models returning a nil map. -/
def convertToMap (raw : GoAny) : Option (List (String × String)) :=
  match raw with
  | .mapSA entries =>
      some (entries.foldl (fun acc p => assocSet acc p.1 (gofmtV p.2)) [])
  | .strVal doc => unmarshalStringMap doc
  | .other => some []

/-- Lexicographic comparison of character lists by code point, used for the
key order of marshaled maps. -/
def listCharLt : List Char → List Char → Bool
  | [], [] => false
  | [], _ :: _ => true
  | _ :: _, [] => false
  | a :: as, b :: bs =>
      if a.toNat < b.toNat then true
      else if b.toNat < a.toNat then false
      else listCharLt as bs

def insertByKey (p : String × Json) : List (String × Json) → List (String × Json)
  | [] => [p]
  | q :: qs => if listCharLt p.1.data q.1.data then p :: q :: qs else q :: insertByKey p qs

def sortByKey : List (String × Json) → List (String × Json)
  | [] => []
  | p :: ps => insertByKey p (sortByKey ps)

/-- Model of json.Marshal of a map[string]string: a JSON object whose
members are the map entries with string values, in sorted key order (Go
sorts map keys when marshaling). -/
def marshalStringMap (m : List (String × String)) : Json :=
  .obj (sortByKey (m.map fun p => (p.1, .str p.2)))

/-- InjectTraceContextJSON (src/unnamed/part_000 lines 19-23): marshal the
injected carrier map, discarding the (never occurring) error; the returned
text is represented by its document. -/
def injectTraceContextJSON (ctx : Ctx) : Json :=
  marshalStringMap (injectTraceContext ctx)

/-! ## Theorems -/

theorem assocSet_lookup_self {α : Type} (m : List (String × α)) (k : String) (v : α) :
    (assocSet m k v).lookup k = some v := by
  induction m with
  | nil => simp [assocSet, List.lookup]
  | cons p rest ih =>
      by_cases h : p.1 = k
      · simp [assocSet, h, List.lookup]
      · have hb : (k == p.1) = false := beq_eq_false_iff_ne.mpr (fun he => h he.symm)
        simp [assocSet, h, List.lookup, hb, ih]

theorem assocSet_lookup_other {α : Type} (m : List (String × α)) (k k' : String) (v : α)
    (h : k' ≠ k) : (assocSet m k v).lookup k' = m.lookup k' := by
  induction m with
  | nil =>
      have hb : (k' == k) = false := beq_eq_false_iff_ne.mpr h
      simp [assocSet, List.lookup, hb]
  | cons p rest ih =>
      by_cases hp : p.1 = k
      · have hb : (k' == k) = false := beq_eq_false_iff_ne.mpr h
        have hb2 : (k' == p.1) = false := by rw [hp]; exact hb
        simp [assocSet, hp, List.lookup, hb, hb2]
      · by_cases hk : k' = p.1
        · have hb : (k' == p.1) = true := by simp [hk]
          simp [assocSet, hp, List.lookup, hb]
        · have hb : (k' == p.1) = false := beq_eq_false_iff_ne.mpr hk
          simp [assocSet, hp, List.lookup, hb, ih]

theorem hexCharVal_hexDigitChar (n : Nat) (h : n < 16) :
    hexCharVal (hexDigitChar n) = some n := by
  interval_cases n <;> rfl

theorem hexDigitChar_ne_dash (n : Nat) (h : n < 16) : hexDigitChar n ≠ '-' := by
  interval_cases n <;> decide

theorem hexDigitChar_ne_comma (n : Nat) (h : n < 16) : hexDigitChar n ≠ ',' := by
  interval_cases n <;> decide

theorem toHexW_length (w n : Nat) : (toHexW w n).length = w := by
  induction w generalizing n with
  | zero => rfl
  | succ w ih => simp [toHexW, ih]

theorem mem_toHexW (w n : Nat) (c : Char) (h : c ∈ toHexW w n) :
    ∃ m, m < 16 ∧ c = hexDigitChar m := by
  induction w generalizing n with
  | zero => simp [toHexW] at h
  | succ w ih =>
      simp only [toHexW, List.mem_append, List.mem_singleton] at h
      rcases h with h | h
      · exact ih _ h
      · exact ⟨n % 16, Nat.mod_lt _ (by norm_num), h⟩

theorem dash_not_mem_toHexW (w n : Nat) : '-' ∉ toHexW w n := by
  intro h
  obtain ⟨m, hm, he⟩ := mem_toHexW w n _ h
  exact hexDigitChar_ne_dash m hm he.symm

theorem comma_not_mem_toHexW (w n : Nat) : ',' ∉ toHexW w n := by
  intro h
  obtain ⟨m, hm, he⟩ := mem_toHexW w n _ h
  exact hexDigitChar_ne_comma m hm he.symm

theorem fromHexAux_toHexW (w : Nat) :
    ∀ (n acc : Nat) (rest : List Char), n < 16 ^ w →
      fromHexAux (toHexW w n ++ rest) acc = fromHexAux rest (acc * 16 ^ w + n) := by
  induction w with
  | zero =>
      intro n acc rest h
      have hn : n = 0 := Nat.lt_one_iff.mp h
      subst hn
      simp [toHexW]
  | succ w ih =>
      intro n acc rest h
      have hdiv : n / 16 < 16 ^ w := by
        rw [Nat.div_lt_iff_lt_mul (by norm_num)]
        calc n < 16 ^ (w + 1) := h
        _ = 16 ^ w * 16 := by ring
      have hmod : n % 16 < 16 := Nat.mod_lt _ (by norm_num)
      calc fromHexAux (toHexW (w + 1) n ++ rest) acc
          = fromHexAux (toHexW w (n / 16) ++ (hexDigitChar (n % 16) :: rest)) acc := by
            simp [toHexW]
        _ = fromHexAux (hexDigitChar (n % 16) :: rest) (acc * 16 ^ w + n / 16) :=
            ih (n / 16) acc _ hdiv
        _ = fromHexAux rest (16 * (acc * 16 ^ w + n / 16) + n % 16) := by
            simp [fromHexAux, hexCharVal_hexDigitChar _ hmod]
        _ = fromHexAux rest (acc * 16 ^ (w + 1) + n) := by
            congr 1
            have hdm := Nat.div_add_mod n 16
            have hpow : acc * 16 ^ (w + 1) = 16 * (acc * 16 ^ w) := by ring
            omega

theorem fromHex_toHexW (w n : Nat) (h : n < 16 ^ w) :
    fromHex (toHexW w n) = some n := by
  have := fromHexAux_toHexW w n 0 [] h
  simpa [fromHex, fromHexAux] using this

theorem splitOnChar_ne_nil (sep : Char) (l : List Char) : splitOnChar sep l ≠ [] := by
  cases l with
  | nil => simp [splitOnChar]
  | cons c cs =>
      simp only [splitOnChar]
      rcases h : splitOnChar sep cs with _ | ⟨x, t⟩
      · simp
      · by_cases hc : c = sep <;> simp [hc]

theorem splitOnChar_no_sep (sep : Char) (l : List Char) (h : sep ∉ l) :
    splitOnChar sep l = [l] := by
  induction l with
  | nil => rfl
  | cons c cs ih =>
      have hc : c ≠ sep := fun he => h (by simp [he])
      have hcs : sep ∉ cs := fun hm => h (by simp [hm])
      simp [splitOnChar, ih hcs, hc]

theorem splitOnChar_append_sep (sep : Char) (a l : List Char) (h : sep ∉ a) :
    splitOnChar sep (a ++ sep :: l) = a :: splitOnChar sep l := by
  induction a with
  | nil =>
      simp only [List.nil_append, splitOnChar]
      rcases hs : splitOnChar sep l with _ | ⟨x, t⟩
      · exact absurd hs (splitOnChar_ne_nil sep l)
      · simp
  | cons c cs ih =>
      have hc : c ≠ sep := fun he => h (by simp [he])
      have hcs : sep ∉ cs := fun hm => h (by simp [hm])
      have hr := ih hcs
      simp only [List.cons_append, splitOnChar, List.append_eq]
      rw [hr]
      simp [hc]

theorem splitOnChar_joinChar (sep : Char) (parts : List (List Char))
    (hne : parts ≠ []) (hfree : ∀ p ∈ parts, sep ∉ p) :
    splitOnChar sep (joinChar sep parts) = parts := by
  induction parts with
  | nil => exact absurd rfl hne
  | cons x xs ih =>
      cases xs with
      | nil =>
          simp [joinChar, splitOnChar_no_sep sep x (hfree x (by simp))]
      | cons y ys =>
          have hx : sep ∉ x := hfree x (by simp)
          have hrest : ∀ p ∈ y :: ys, sep ∉ p := fun p hp => hfree p (by simp [hp])
          simp only [joinChar]
          rw [splitOnChar_append_sep sep x _ hx, ih (by simp) hrest]

theorem splitFirstEq_append (k v : List Char) (h : '=' ∉ k) :
    splitFirstEq (k ++ '=' :: v) = some (k, v) := by
  induction k with
  | nil => simp [splitFirstEq]
  | cons c cs ih =>
      have hc : c ≠ '=' := fun he => h (by simp [he])
      have hcs : '=' ∉ cs := fun hm => h (by simp [hm])
      simp [splitFirstEq, hc, ih hcs]

/-! ## String helpers -/

theorem string_mk_data (l : List Char) : (String.mk l).data = l := rfl

theorem string_mk_eq_empty_iff (l : List Char) : (String.mk l = "") ↔ l = [] := by
  constructor
  · intro h
    have h2 : (String.mk l).data = ("" : String).data := by rw [h]
    exact h2
  · intro h
    subst h
    rfl

theorem string_mk_of_data (s : String) : String.mk s.data = s := by
  cases s
  rfl

theorem string_ne_empty_of_data (s : String) (h : s.data ≠ []) : s ≠ "" := by
  intro he
  exact h (by rw [he])

theorem string_data_ne_nil (s : String) (h : s ≠ "") : s.data ≠ [] := by
  intro hd
  apply h
  rw [← string_mk_of_data s, hd]

theorem pow2_128_eq : (2 : Nat) ^ 128 = 16 ^ 32 := by norm_num

theorem pow2_64_eq : (2 : Nat) ^ 64 = 16 ^ 16 := by norm_num

theorem parseTraceparent_traceparentChars (sc : SpanContext)
    (h1 : sc.traceID ≠ 0) (h2 : sc.traceID < 2 ^ 128)
    (h3 : sc.spanID ≠ 0) (h4 : sc.spanID < 2 ^ 64) :
    parseTraceparent (String.mk (traceparentChars sc)) = some sc := by
  obtain ⟨t, p, smp⟩ := sc
  simp only [parseTraceparent, traceparentChars, string_mk_data]
  rw [splitOnChar_append_sep '-' ['0', '0'] _ (by decide),
    splitOnChar_append_sep '-' (toHexW 32 t) _ (dash_not_mem_toHexW _ _),
    splitOnChar_append_sep '-' (toHexW 16 p) _ (dash_not_mem_toHexW _ _),
    splitOnChar_no_sep '-' _ (dash_not_mem_toHexW _ _)]
  simp only [parseTraceparentParts]
  have hcond : True ∧
      (toHexW 32 t).length = 32 ∧ (toHexW 16 p).length = 16 ∧
      (toHexW 2 (if smp then 1 else 0)).length = 2 :=
    ⟨trivial, toHexW_length _ _, toHexW_length _ _, toHexW_length _ _⟩
  rw [if_pos hcond]
  simp only [parseTraceparentFields]
  rw [fromHex_toHexW 32 t (pow2_128_eq ▸ h2), fromHex_toHexW 16 p (pow2_64_eq ▸ h4),
    fromHex_toHexW 2 _ (by cases smp <;> norm_num)]
  simp only [Option.some_bind]
  rw [if_pos ⟨h1, h3⟩]
  cases smp <;> rfl

theorem baggageChars_ne_nil (bg : List (String × String)) (h : bg ≠ []) :
    baggageChars bg ≠ [] := by
  cases bg with
  | nil => exact absurd rfl h
  | cons q rest =>
      cases rest with
      | nil => simp [baggageChars, joinChar, baggageMemberChars]
      | cons r rest2 => simp [baggageChars, List.map_cons, joinChar, baggageMemberChars]

theorem comma_not_mem_baggageMemberChars (p : String × String)
    (hk : ',' ∉ p.1.data) (hv : ',' ∉ p.2.data) : ',' ∉ baggageMemberChars p := by
  intro hm
  simp only [baggageMemberChars, List.mem_append, List.mem_cons] at hm
  rcases hm with hm | hm | hm
  · exact hk hm
  · exact absurd hm (by decide)
  · exact hv hm

theorem goParse_map_baggageMemberChars (bg : List (String × String))
    (hval : validBaggage bg) :
    parseBaggage.goParse (bg.map baggageMemberChars) = some bg := by
  induction bg with
  | nil => rfl
  | cons q rest ih =>
      obtain ⟨hk, hke, _, _⟩ := hval q (by simp)
      have hrest : validBaggage rest := fun r hr => hval r (by simp [hr])
      simp only [List.map_cons, parseBaggage.goParse, parseBaggageMember,
        baggageMemberChars, splitFirstEq_append q.1.data q.2.data hke]
      rw [if_neg (string_data_ne_nil q.1 hk), ih hrest, string_mk_of_data,
        string_mk_of_data]

theorem parseBaggage_baggageChars (bg : List (String × String))
    (hne : bg ≠ []) (hval : validBaggage bg) :
    parseBaggage (String.mk (baggageChars bg)) = some bg := by
  have hfree : ∀ m ∈ bg.map baggageMemberChars, ',' ∉ m := by
    intro m hm
    simp only [List.mem_map] at hm
    obtain ⟨q, hq, he⟩ := hm
    obtain ⟨_, _, hkc, hvc⟩ := hval q hq
    exact he ▸ comma_not_mem_baggageMemberChars q hkc hvc
  simp only [parseBaggage, baggageChars, string_mk_data]
  rw [splitOnChar_joinChar ',' _ (by simpa using hne) hfree]
  exact goParse_map_baggageMemberChars bg hval

theorem mapGet_tp_pair (a b : String) :
    mapGet [("traceparent", a), ("baggage", b)] "traceparent" = a := rfl

theorem mapGet_bg_pair (a b : String) :
    mapGet [("traceparent", a), ("baggage", b)] "baggage" = b := rfl

theorem mapGet_tp_single (a : String) :
    mapGet [("traceparent", a)] "traceparent" = a := rfl

theorem mapGet_bg_single (a : String) :
    mapGet [("traceparent", a)] "baggage" = "" := rfl

/-- C1: injecting a valid trace context into a fresh empty carrier with
InjectTraceContext and extracting from that carrier with
ExtractTraceContext reproduces the TraceID, the current SpanID, the
TraceFlags sampling bit, and the Baggage of the original context.  The
validity hypotheses state what the OpenTelemetry types guarantee: nonzero
ids within their 128/64-bit widths and baggage entries over the baggage
charset. -/
theorem extract_inject_roundTrip (ctx : Ctx)
    (h1 : ctx.sc.traceID ≠ 0) (h2 : ctx.sc.traceID < 2 ^ 128)
    (h3 : ctx.sc.spanID ≠ 0) (h4 : ctx.sc.spanID < 2 ^ 64)
    (hbg : validBaggage ctx.baggage) :
    (extractTraceContext background (injectTraceContext ctx)).sc.traceID = ctx.sc.traceID ∧
    (extractTraceContext background (injectTraceContext ctx)).sc.spanID = ctx.sc.spanID ∧
    (extractTraceContext background (injectTraceContext ctx)).sc.sampled = ctx.sc.sampled ∧
    (extractTraceContext background (injectTraceContext ctx)).baggage = ctx.baggage := by
  have hvalid : ctx.sc.isValid = true := by
    simp [SpanContext.isValid, h1, h3]
  have htp : String.mk (traceparentChars ctx.sc) ≠ "" := by
    rw [Ne, string_mk_eq_empty_iff]
    simp [traceparentChars]
  have hparse := parseTraceparent_traceparentChars ctx.sc h1 h2 h3 h4
  by_cases hb : ctx.baggage = []
  · have hcar : injectTraceContext ctx =
        [("traceparent", String.mk (traceparentChars ctx.sc))] := by
      rw [injectTraceContext, injectTC, if_pos hvalid, injectBaggage, if_pos hb]
      rfl
    have htc : extractTC background (injectTraceContext ctx) =
        { background with sc := ctx.sc } := by
      rw [extractTC, hcar, mapGet_tp_single, if_neg htp, hparse]
    have hbgstep : extractTraceContext background (injectTraceContext ctx) =
        { background with sc := ctx.sc } := by
      rw [extractTraceContext, htc, extractBaggage, hcar, mapGet_bg_single, if_pos rfl]
    rw [hbgstep, hb]
    exact ⟨rfl, rfl, rfl, rfl⟩
  · have hbgne : String.mk (baggageChars ctx.baggage) ≠ "" := by
      rw [Ne, string_mk_eq_empty_iff]
      exact baggageChars_ne_nil ctx.baggage hb
    have hcar : injectTraceContext ctx =
        [("traceparent", String.mk (traceparentChars ctx.sc)),
         ("baggage", String.mk (baggageChars ctx.baggage))] := by
      rw [injectTraceContext, injectTC, if_pos hvalid, injectBaggage, if_neg hb]
      rfl
    have htc : extractTC background (injectTraceContext ctx) =
        { background with sc := ctx.sc } := by
      rw [extractTC, hcar, mapGet_tp_pair, if_neg htp, hparse]
    have hbgstep : extractTraceContext background (injectTraceContext ctx) =
        { sc := ctx.sc, baggage := ctx.baggage } := by
      rw [extractTraceContext, htc, extractBaggage, hcar, mapGet_bg_pair, if_neg hbgne,
        parseBaggage_baggageChars ctx.baggage hb hbg]
    rw [hbgstep]
    exact ⟨rfl, rfl, rfl, rfl⟩

/-- C1 witness: the round trip evaluated at a concrete context carrying a
trace id, a span id, the sampled flag, and one baggage entry. -/
theorem extract_inject_roundTrip_witness :
    (extractTraceContext background (injectTraceContext ⟨⟨7, 5, true⟩, [("tenant", "acme")]⟩)).sc.traceID = 7 ∧
    (extractTraceContext background (injectTraceContext ⟨⟨7, 5, true⟩, [("tenant", "acme")]⟩)).sc.spanID = 5 ∧
    (extractTraceContext background (injectTraceContext ⟨⟨7, 5, true⟩, [("tenant", "acme")]⟩)).sc.sampled = true ∧
    (extractTraceContext background (injectTraceContext ⟨⟨7, 5, true⟩, [("tenant", "acme")]⟩)).baggage = [("tenant", "acme")] :=
  extract_inject_roundTrip ⟨⟨7, 5, true⟩, [("tenant", "acme")]⟩
    (by decide) (by norm_num) (by decide) (by norm_num) (by decide)

/-- C2: ExtractTraceContext is a total function, and on a carrier whose
propagation fields are absent or malformed (the traceparent field is empty
or unparseable, and the baggage field is empty or unparseable) it returns
the base context unchanged; applied to the background context this is a
context with no parent trace. -/
theorem extract_malformed_unchanged (ctx : Ctx) (c : List (String × String))
    (htp : mapGet c "traceparent" = "" ∨ parseTraceparent (mapGet c "traceparent") = none)
    (hbg : mapGet c "baggage" = "" ∨ parseBaggage (mapGet c "baggage") = none) :
    extractTraceContext ctx c = ctx := by
  have h1 : extractTC ctx c = ctx := by
    rw [extractTC]
    rcases htp with h | h
    · rw [if_pos h]
    · by_cases he : mapGet c "traceparent" = ""
      · rw [if_pos he]
      · rw [if_neg he, h]
  rw [extractTraceContext, h1, extractBaggage]
  rcases hbg with h | h
  · rw [if_pos h]
  · by_cases he : mapGet c "baggage" = ""
    · rw [if_pos he]
    · rw [if_neg he, h]

/-- C2 witness: extraction from a garbage carrier (unparseable traceparent
and baggage fields) leaves the background context untouched, and the empty
carrier does too. -/
theorem extract_malformed_unchanged_witness :
    extractTraceContext background [("traceparent", "garbage"), ("baggage", "novalue")] =
      background ∧
    extractTraceContext background [] = background :=
  ⟨extract_malformed_unchanged background _ (Or.inr (by decide)) (Or.inr (by decide)),
   extract_malformed_unchanged background [] (Or.inl rfl) (Or.inl rfl)⟩

/-- C3 counterexample: Set on a carrier whose headers table is nil does not
succeed — the Go assignment panics (modelled as `none`), and no lazy
allocation takes place, contrary to the claim that Set tolerates a
nil/absent header map and never fails or panics. -/
theorem set_nil_headers_panics :
    RabbitMQCarrier.set ⟨none⟩ "traceparent" "x" = none := rfl

/-- C3 amended: when the headers table is non-nil — as at every call site,
which construct the carrier over a freshly made or non-empty table — Set
stores the string value under the key and succeeds; on a nil table the
write panics instead of lazily allocating. -/
theorem set_nonNil_stores (t : List (String × AmqpVal)) (key value : String) :
    RabbitMQCarrier.set ⟨some t⟩ key value = some ⟨some (assocSet t key (.vStr value))⟩ ∧
    (assocSet t key (.vStr value)).lookup key = some (.vStr value) ∧
    RabbitMQCarrier.set ⟨none⟩ key value = none :=
  ⟨rfl, assocSet_lookup_self t key _, rfl⟩

/-- C4: Get is total and never fails: it returns the stored string when the
key is present and its value is a string (the only string-coercible case,
per the Go type assertion), and the empty string when the key is absent or
the value is of any non-string type. -/
theorem get_total_spec (c : RabbitMQCarrier) (key : String) :
    (∀ s, c.lookupHeader key = some (.vStr s) → c.get key = s) ∧
    (∀ v, c.lookupHeader key = some v → (∀ s, v ≠ .vStr s) → c.get key = "") ∧
    (c.lookupHeader key = none → c.get key = "") := by
  refine ⟨fun s hs => ?_, fun v hv hne => ?_, fun hn => ?_⟩
  · rw [RabbitMQCarrier.get, hs]
  · rw [RabbitMQCarrier.get, hv]
    cases v with
    | vStr s => exact absurd rfl (hne s)
    | vInt n => rfl
    | vBool b => rfl
    | vBytes bs => rfl
  · rw [RabbitMQCarrier.get, hn]

/-- C4 witness: a present string value is returned; a present non-string
value and an absent key both give the empty string. -/
theorem get_total_spec_witness :
    (RabbitMQCarrier.get ⟨some [("traceparent", .vStr "00-ab-cd-01"), ("n", .vInt 5)]⟩
       "traceparent") = "00-ab-cd-01" ∧
    (RabbitMQCarrier.get ⟨some [("traceparent", .vStr "00-ab-cd-01"), ("n", .vInt 5)]⟩
       "n") = "" ∧
    (RabbitMQCarrier.get ⟨some [("traceparent", .vStr "00-ab-cd-01"), ("n", .vInt 5)]⟩
       "missing") = "" :=
  ⟨(get_total_spec ⟨some [("traceparent", .vStr "00-ab-cd-01"), ("n", .vInt 5)]⟩
      "traceparent").1 "00-ab-cd-01" rfl,
   (get_total_spec ⟨some [("traceparent", .vStr "00-ab-cd-01"), ("n", .vInt 5)]⟩
      "n").2.1 (.vInt 5) rfl (fun _ h => AmqpVal.noConfusion h),
   (get_total_spec ⟨some [("traceparent", .vStr "00-ab-cd-01"), ("n", .vInt 5)]⟩
      "missing").2.2 rfl⟩

/-- C6 counterexample: for the no-op placeholder span, shared.Trace returns
the all-zero sixteen-digit hex string, not the empty string the claim
requires. -/
theorem traceSpanIdHex_noop_not_empty :
    traceSpanIdHex noopSpanContext = "0000000000000000" ∧
    traceSpanIdHex noopSpanContext ≠ "" := by
  constructor
  · rfl
  · decide

/-- C6 amended: the span-id hex is the canonical sixteen-digit lowercase
hex rendering of the span id (every character is a lowercase hex digit and
decoding it yields the id back), produced with no error; the consumer
loop's derivation yields that string for a valid span and the empty string
for an invalid (no-op) span, while shared.Trace yields the hex rendering
unconditionally — all zeros, not empty, for a no-op span. -/
theorem spanIdHex_canonical (sc : SpanContext) (hw : sc.spanID < 2 ^ 64) :
    (traceSpanIdHex sc).length = 16 ∧
    (∀ ch ∈ (traceSpanIdHex sc).data, (hexCharVal ch).isSome) ∧
    fromHex (traceSpanIdHex sc).data = some sc.spanID ∧
    (sc.isValid = true → consumerCurrentSpanId sc = traceSpanIdHex sc) ∧
    (sc.isValid = false → consumerCurrentSpanId sc = "") := by
  refine ⟨?_, ?_, ?_, fun hv => ?_, fun hv => ?_⟩
  · show (toHexW 16 sc.spanID).length = 16
    exact toHexW_length _ _
  · intro ch hch
    obtain ⟨m, hm, he⟩ := mem_toHexW 16 sc.spanID ch hch
    rw [he, hexCharVal_hexDigitChar m hm]
    rfl
  · exact fromHex_toHexW 16 sc.spanID (pow2_64_eq ▸ hw)
  · rw [consumerCurrentSpanId, if_pos hv]
    rfl
  · rw [consumerCurrentSpanId, if_neg (by rw [hv]; exact Bool.false_ne_true)]

/-- C6 amended witness: evaluated at a concrete valid span context. -/
theorem spanIdHex_canonical_witness :
    (traceSpanIdHex ⟨1, 255, true⟩).length = 16 ∧
    fromHex (traceSpanIdHex ⟨1, 255, true⟩).data = some 255 ∧
    consumerCurrentSpanId ⟨1, 255, true⟩ = traceSpanIdHex ⟨1, 255, true⟩ := by
  have h := spanIdHex_canonical ⟨1, 255, true⟩ (by norm_num)
  exact ⟨h.1, h.2.2.1, h.2.2.2.1 (by decide)⟩

/-- C7 counterexample: on the recovered-processing-error path the negative
acknowledgment is issued before the span is ended, so the boundary
completion does not occur only after the processing span has ended on
every path. -/
theorem nack_before_spanEnd_on_error :
    (consumerLoopEvents true true).indexOf .nack <
      (consumerLoopEvents true true).indexOf .spanEnd ∧
    Event.nack ∈ consumerLoopEvents true true ∧
    Event.spanEnd ∈ consumerLoopEvents true true := by decide

/-- C7 amended: on the success path of both consumer loops the
acknowledgment occurs only after the span has ended; on the
recovered-error path the negative acknowledgment precedes the span end,
though the span is still ended (exactly once) before the iteration
completes and no acknowledgment is sent. -/
theorem completion_and_spanEnd_order (hasHeaders procErr : Bool) :
    (procErr = false →
      (consumerLoopEvents hasHeaders procErr).indexOf .spanEnd <
        (consumerLoopEvents hasHeaders procErr).indexOf .ack ∧
      Event.spanEnd ∈ consumerLoopEvents hasHeaders procErr ∧
      Event.ack ∈ consumerLoopEvents hasHeaders procErr ∧
      Event.nack ∉ consumerLoopEvents hasHeaders procErr) ∧
    (procErr = true →
      (consumerLoopEvents hasHeaders procErr).indexOf .nack <
        (consumerLoopEvents hasHeaders procErr).indexOf .spanEnd ∧
      (consumerLoopEvents hasHeaders procErr).count .spanEnd = 1 ∧
      Event.ack ∉ consumerLoopEvents hasHeaders procErr) ∧
    ((consumer1SimpleLoopEvents hasHeaders).indexOf .spanEnd <
      (consumer1SimpleLoopEvents hasHeaders).indexOf .ack ∧
      Event.spanEnd ∈ consumer1SimpleLoopEvents hasHeaders ∧
      Event.ack ∈ consumer1SimpleLoopEvents hasHeaders) := by
  cases hasHeaders <;> cases procErr <;> decide

/-- C7 amended witness: the success path of the processing consumer with
headers present, evaluated concretely. -/
theorem completion_and_spanEnd_order_witness :
    (consumerLoopEvents true false).indexOf .spanEnd <
      (consumerLoopEvents true false).indexOf .ack ∧
    Event.spanEnd ∈ consumerLoopEvents true false ∧
    Event.ack ∈ consumerLoopEvents true false ∧
    Event.nack ∉ consumerLoopEvents true false :=
  (completion_and_spanEnd_order true false).1 rfl

/-- C5: with a valid trace the returned sink is the base sink pre-populated
with trace_id, and it gains a span_id field exactly when the span-id string
is nonempty (any span_id field otherwise present came from the base sink);
with no valid trace the base sink is returned unmodified. -/
theorem withTrace_spec (sc : SpanContext) (spanId : String) (base : Logger) :
    (sc.isValid = false → withTrace sc spanId base = base) ∧
    (sc.isValid = true →
      ("trace_id", traceIDString sc.traceID) ∈ withTrace sc spanId base ∧
      (spanId ≠ "" → ("span_id", spanId) ∈ withTrace sc spanId base) ∧
      (spanId = "" → ∀ v, ("span_id", v) ∈ withTrace sc spanId base →
        ("span_id", v) ∈ base)) := by
  constructor
  · intro hv
    rw [withTrace, if_neg (by rw [hv]; exact Bool.false_ne_true)]
  · intro hv
    rw [withTrace, if_pos hv]
    refine ⟨by simp, fun hne => ?_, fun he v hv2 => ?_⟩
    · rw [if_pos hne]
      simp
    · rw [if_neg (by simp [he])] at hv2
      simp only [List.mem_append, List.mem_cons] at hv2
      rcases hv2 with h | h | h
      · exact h
      · have hfst := congrArg Prod.fst h
        simp at hfst
      · simp at h

/-- C5 witness: a valid trace with a nonempty span id gains both fields; a
valid trace with the empty span id adds no span_id to a fresh sink; an
invalid trace returns the base sink. -/
theorem withTrace_spec_witness :
    ("trace_id", traceIDString 9) ∈ withTrace ⟨9, 4, true⟩ "00f067aa0ba902b7" [] ∧
    ("span_id", "00f067aa0ba902b7") ∈ withTrace ⟨9, 4, true⟩ "00f067aa0ba902b7" [] ∧
    (∀ v, ("span_id", v) ∈ withTrace ⟨9, 4, true⟩ "" [] → ("span_id", v) ∈ ([] : Logger)) ∧
    withTrace ⟨0, 0, false⟩ "abc" [("app", "consumer-1")] = [("app", "consumer-1")] :=
  ⟨((withTrace_spec ⟨9, 4, true⟩ "00f067aa0ba902b7" []).2 (by decide)).1,
   ((withTrace_spec ⟨9, 4, true⟩ "00f067aa0ba902b7" []).2 (by decide)).2.1 (by decide),
   ((withTrace_spec ⟨9, 4, true⟩ "" []).2 (by decide)).2.2 rfl,
   (withTrace_spec ⟨0, 0, false⟩ "abc" [("app", "consumer-1")]).1 (by decide)⟩

/-- C8 counterexample: the consumer's random processing error is surfaced
(an error is returned, leading to the negative acknowledgment) and recorded
on the span, but the span status remains Unset — the error is not recorded
together with a failure (Error) status, contrary to the claim. -/
theorem processMessage_error_without_errorStatus :
    (processMessage 5 true).err = some "random processing error in consumer-1" ∧
    (processMessage 5 true).span.recorded = ["random processing error in consumer-1"] ∧
    (processMessage 5 true).span.status = .unset := by decide

/-- C8 amended: every business error is surfaced through the normal result
channel — the HTTP handler returns a 500 error response and the consumer
returns the error that leads to the negative acknowledgment — but only the
HTTP handler records it on the active span together with the Error status;
the consumer's random processing error is recorded with status left Unset,
and its empty-body error is surfaced without being recorded at all. -/
theorem business_error_surfacing (e : String) (bodyLen : Nat) (randErr : Bool) :
    ((randomErrorHandler (some e)).span.status = .errorStatus ∧
      e ∈ (randomErrorHandler (some e)).span.recorded ∧
      (randomErrorHandler (some e)).statusCode = 500 ∧
      (randomErrorHandler (some e)).errorBody = true) ∧
    ((randomErrorHandler none).statusCode = 200) ∧
    (bodyLen ≠ 0 → randErr = true →
      (processMessage bodyLen randErr).err.isSome ∧
      (processMessage bodyLen randErr).span.recorded ≠ [] ∧
      (processMessage bodyLen randErr).span.status = .unset) ∧
    (bodyLen = 0 →
      (processMessage bodyLen randErr).err.isSome ∧
      (processMessage bodyLen randErr).span.recorded = []) := by
  refine ⟨⟨rfl, by simp [randomErrorHandler], rfl, rfl⟩, rfl, fun hb hr => ?_, fun hb => ?_⟩
  · rw [processMessage, if_neg hb, hr, if_pos rfl]
    exact ⟨rfl, by decide, rfl⟩
  · rw [processMessage, if_pos hb]
    exact ⟨rfl, rfl⟩

/-- C8 amended witness: evaluated at the concrete error string and at a
five-byte body with the random error drawn. -/
theorem business_error_surfacing_witness :
    (randomErrorHandler (some "simulated random error")).span.status = .errorStatus ∧
    (randomErrorHandler (some "simulated random error")).statusCode = 500 ∧
    (processMessage 5 true).err.isSome ∧
    (processMessage 5 true).span.status = .unset :=
  ⟨(business_error_surfacing "simulated random error" 5 true).1.1,
   (business_error_surfacing "simulated random error" 5 true).1.2.2.1,
   ((business_error_surfacing "simulated random error" 5 true).2.2.1
     (by decide) rfl).1,
   ((business_error_surfacing "simulated random error" 5 true).2.2.1
     (by decide) rfl).2.2⟩

theorem assocSet_append_fresh {γ : Type} (acc : List (String × γ)) (k : String) (v : γ)
    (h : ∀ q ∈ acc, q.1 ≠ k) : assocSet acc k v = acc ++ [(k, v)] := by
  induction acc with
  | nil => rfl
  | cons q rest ih =>
      have hq : q.1 ≠ k := h q (by simp)
      rw [assocSet, if_neg hq, ih (fun r hr => h r (by simp [hr]))]
      rfl

theorem foldl_assocSet_eq_map {β γ : Type} (g : β → γ) (e : List (String × β)) :
    ∀ acc : List (String × γ), (∀ p ∈ e, ∀ q ∈ acc, q.1 ≠ p.1) →
      (e.map Prod.fst).Nodup →
      e.foldl (fun acc p => assocSet acc p.1 (g p.2)) acc =
        acc ++ e.map (fun p => (p.1, g p.2)) := by
  induction e with
  | nil => intro acc _ _; simp
  | cons p rest ih =>
      intro acc hfresh hnd
      have hset : assocSet acc p.1 (g p.2) = acc ++ [(p.1, g p.2)] :=
        assocSet_append_fresh acc p.1 (g p.2) (fun q hq => hfresh p (by simp) q hq)
      have hnd' : (rest.map Prod.fst).Nodup := by
        simp only [List.map_cons, List.nodup_cons] at hnd
        exact hnd.2
      have hnotmem : p.1 ∉ rest.map Prod.fst := by
        simp only [List.map_cons, List.nodup_cons] at hnd
        exact hnd.1
      have hfresh' : ∀ r ∈ rest, ∀ q ∈ acc ++ [(p.1, g p.2)], q.1 ≠ r.1 := by
        intro r hr q hq
        rcases List.mem_append.mp hq with hq | hq
        · exact hfresh r (by simp [hr]) q hq
        · have : q = (p.1, g p.2) := by simpa using hq
          rw [this]
          intro he
          exact hnotmem (he ▸ List.mem_map_of_mem Prod.fst hr)
      calc (p :: rest).foldl (fun acc p => assocSet acc p.1 (g p.2)) acc
          = rest.foldl (fun acc p => assocSet acc p.1 (g p.2)) (assocSet acc p.1 (g p.2)) := rfl
        _ = (acc ++ [(p.1, g p.2)]) ++ rest.map (fun p => (p.1, g p.2)) := by
            rw [hset, ih _ hfresh' hnd']
        _ = acc ++ (p :: rest).map (fun p => (p.1, g p.2)) := by simp

theorem lookup_map_values {β γ : Type} (g : β → γ) (e : List (String × β)) (k : String) :
    (e.map (fun p => (p.1, g p.2))).lookup k = (e.lookup k).map g := by
  induction e with
  | nil => rfl
  | cons p rest ih =>
      by_cases h : k = p.1
      · have hb : (k == p.1) = true := by simp [h]
        simp [List.lookup, hb]
      · have hb : (k == p.1) = false := beq_eq_false_iff_ne.mpr h
        simp [List.lookup, hb, ih]

/-- C9 counterexample: a string input holding the JSON text null makes
Unmarshal set the map itself to nil, so ConvertToMap returns a nil map —
not the non-nil map the claim asserts for every input. -/
theorem convertToMap_null_gives_nil_map :
    convertToMap (.strVal (some .null)) = none := rfl

/-- C9 amended: ConvertToMap is total; a map-from-string input yields each
value under its key in %v form; a string input that is syntactically
invalid JSON, or valid JSON of a non-object kind other than null, yields
the empty map; the JSON text null yields a nil map; a JSON object yields a
map holding every member key, with non-string member values stored as the
empty string; an input of any other type yields the empty map. -/
theorem convertToMap_amended :
    (∀ e : List (String × GoVal), (e.map Prod.fst).Nodup →
      convertToMap (.mapSA e) = some (e.map fun p => (p.1, gofmtV p.2))) ∧
    convertToMap (.strVal none) = some [] ∧
    convertToMap (.strVal (some .null)) = none ∧
    (∀ b, convertToMap (.strVal (some (.bool b))) = some []) ∧
    (∀ n, convertToMap (.strVal (some (.num n))) = some []) ∧
    (∀ s, convertToMap (.strVal (some (.str s))) = some []) ∧
    (∀ xs, convertToMap (.strVal (some (.arr xs))) = some []) ∧
    (∀ ms : List (String × Json), (ms.map Prod.fst).Nodup →
      convertToMap (.strVal (some (.obj ms))) =
        some (ms.map fun p => (p.1, jsonMemberString p.2))) ∧
    convertToMap .other = some [] := by
  refine ⟨fun e hnd => ?_, rfl, rfl, fun b => rfl, fun n => rfl, fun s => rfl,
    fun xs => rfl, fun ms hnd => ?_, rfl⟩
  · rw [convertToMap,
      foldl_assocSet_eq_map gofmtV e [] (by intro p _ q hq; simp at hq) hnd]
    rfl
  · rw [convertToMap, unmarshalStringMap,
      foldl_assocSet_eq_map jsonMemberString ms [] (by intro p _ q hq; simp at hq) hnd]
    rfl

/-- C9 amended witness: a two-entry map input with an int value, and a JSON
object with one string and one numeric member, evaluated concretely. -/
theorem convertToMap_amended_witness :
    convertToMap (.mapSA [("traceparent", .vStr "00-aa-bb-01"), ("retries", .vInt 3)]) =
      some [("traceparent", "00-aa-bb-01"), ("retries", "3")] ∧
    convertToMap (.strVal (some (.obj [("a", .str "x"), ("b", .num 1)]))) =
      some [("a", "x"), ("b", "")] :=
  ⟨convertToMap_amended.1 [("traceparent", .vStr "00-aa-bb-01"), ("retries", .vInt 3)]
     (by decide),
   convertToMap_amended.2.2.2.2.2.2.2.1 [("a", .str "x"), ("b", .num 1)] (by decide)⟩

theorem lookup_pair_comm (a b k : String) :
    List.lookup k [("baggage", b), ("traceparent", a)] =
      List.lookup k [("traceparent", a), ("baggage", b)] := by
  by_cases h1 : k = "traceparent"
  · subst h1
    rfl
  · by_cases h2 : k = "baggage"
    · subst h2
      rfl
    · have hb1 : (k == "traceparent") = false := beq_eq_false_iff_ne.mpr h1
      have hb2 : (k == "baggage") = false := beq_eq_false_iff_ne.mpr h2
      simp [List.lookup, hb1, hb2]

/-- C10: converting the JSON produced by InjectTraceContextJSON back with
ConvertToMap yields exactly the map produced by InjectTraceContext — the
same key/value mapping, Go maps being unordered. -/
theorem convertToMap_injectJSON_roundTrip (ctx : Ctx) :
    ∃ m, convertToMap (.strVal (some (injectTraceContextJSON ctx))) = some m ∧
      ∀ k, m.lookup k = (injectTraceContext ctx).lookup k := by
  by_cases hv : ctx.sc.isValid
  · by_cases hb : ctx.baggage = []
    · have hcar : injectTraceContext ctx =
          [("traceparent", String.mk (traceparentChars ctx.sc))] := by
        rw [injectTraceContext, injectTC, if_pos hv, injectBaggage, if_pos hb]
        rfl
      rw [injectTraceContextJSON, hcar]
      exact ⟨_, rfl, fun k => rfl⟩
    · have hcar : injectTraceContext ctx =
          [("traceparent", String.mk (traceparentChars ctx.sc)),
           ("baggage", String.mk (baggageChars ctx.baggage))] := by
        rw [injectTraceContext, injectTC, if_pos hv, injectBaggage, if_neg hb]
        rfl
      rw [injectTraceContextJSON, hcar]
      exact ⟨_, rfl, fun k => lookup_pair_comm _ _ k⟩
  · by_cases hb : ctx.baggage = []
    · have hcar : injectTraceContext ctx = [] := by
        rw [injectTraceContext, injectTC, if_neg hv, injectBaggage, if_pos hb]
      rw [injectTraceContextJSON, hcar]
      exact ⟨_, rfl, fun k => rfl⟩
    · have hcar : injectTraceContext ctx =
          [("baggage", String.mk (baggageChars ctx.baggage))] := by
        rw [injectTraceContext, injectTC, if_neg hv, injectBaggage, if_neg hb]
        rfl
      rw [injectTraceContextJSON, hcar]
      exact ⟨_, rfl, fun k => rfl⟩

end Obs
